import Mathlib

/-!
Shallow embedding of the Bitburner automation repository (ego-tsioge/bitburner),
centred on the server-optimization scheduler in src/unnamed/part_000
(function optimizeServer and its helpers), the worker scripts
(src/unnamed/part_001 bin.grow, src/bitburner-home/src/bin.weaken.js),
the localStorage persistence layer (src/bitburner-home/src/lib.config.js)
and the RingBuffer class (src/unnamed/part_000).

Conventions of the embedding:
- JavaScript numbers are modelled as rationals (ℚ); values that the source
  produces with Math.floor / Math.ceil are integers (ℤ).
- Timestamps (performance.now / Date.now) are rationals supplied by the
  environment at each read point.
- The Netscript API (ns.*) is an external oracle; its answers are fields of
  explicit environment structures.
-/

namespace Bitburner

/-! ### Thread split (optimizeServer, part_000 lines 411-412)

Source:
  let weakThreads = Math.ceil(maxSlots / 10);
  let growThreads = maxSlots - weakThreads;
-/

/-- weakThreads, part_000 line 411: Math.ceil(maxSlots / 10). -/
def weakThreads (maxSlots : ℤ) : ℤ := ⌈(maxSlots : ℚ) / 10⌉

/-- growThreads, part_000 line 412: maxSlots - weakThreads. -/
def growThreads (maxSlots : ℤ) : ℤ := maxSlots - weakThreads maxSlots

/-! ### Per-host allocation (optimizeServer, part_000 lines 497-508 and 422-435)

Source of executeOnBot:
  const slots = Math.floor((ns.getServerMaxRam(bot) - ns.getServerUsedRam(bot)) / SCRIPT_RAM_COST);
  if (slots <= 0) return threads;
  const threadsForServer = Math.min(threads, slots);
  const pid = ns.exec(scriptPath, bot, threadsForServer, target, duration, eta);
  if (pid > 0) { pidArray.push(...); return threads - threadsForServer; }
  return threads;

The free-slot count read inside the call and the success of ns.exec are
environment observations; they are passed in explicitly.  The function
returns the pair (threads recorded for this host, remaining threads). -/
def executeOnBot (slots : ℤ) (execOk : Bool) (threads : ℤ) : ℤ × ℤ :=
  if slots ≤ 0 then (0, threads)
  else
    let threadsForServer := min threads slots
    if execOk then (threadsForServer, threads - threadsForServer)
    else (0, threads)

/-- One allocation pass: the dispatch loops of part_000 lines 422-425 and
432-435.  The loop walks the host list in the given order, breaking as soon
as remainingThreads <= 0; hosts after the break receive an assignment of 0.
Returns the per-host assignments (same length as the host list) and the
residual thread count. -/
def allocPass : List (ℤ × Bool) → ℤ → List ℤ × ℤ
  | [], r => ([], r)
  | b :: bs, r =>
    if r ≤ 0 then ((b :: bs).map (fun _ => 0), r)
    else
      let step := executeOnBot b.1 b.2 r
      let rest := allocPass bs step.2
      (step.1 :: rest.1, rest.2)

/-! ### Botnet ordering (optimizeServer, part_000 lines 376-377, 422, 432)

Source:
  const botnet = crawler(ns).filter(server => ns.hasRootAccess(server))
    .sort((a, b) => ns.getServerMaxRam(b) - ns.getServerMaxRam(a));
Grow dispatch iterates botnet forwards (line 422), weaken dispatch iterates
it backwards (line 432). -/

/-- Host as seen by the scheduler: hostname plus the RAM figures that the
ordering and the slot computation read. -/
structure Host where
  name : String
  maxRam : ℚ
  usedRam : ℚ
deriving DecidableEq

/-- RAM cost per worker thread, part_000 line 367: SCRIPT_RAM_COST = 1.75. -/
def SCRIPT_RAM_COST : ℚ := 7 / 4

/-- Free slot count of a host, as computed in part_000 lines 380 and 498:
Math.floor((maxRam - usedRam) / SCRIPT_RAM_COST). -/
def hostFreeSlots (h : Host) : ℤ := ⌊(h.maxRam - h.usedRam) / SCRIPT_RAM_COST⌋

/-- The sorted botnet of part_000 lines 376-377: rooted hosts sorted by
descending maximum RAM (comparator (a, b) => maxRam(b) - maxRam(a); JS
Array.prototype.sort is stable, modelled by a stable insertion sort). -/
def sortBotnet (hosts : List Host) : List Host :=
  List.insertionSort (fun a b => b.maxRam ≤ a.maxRam) hosts

/-- Host visit order of the grow dispatch loop (part_000 line 422: forwards). -/
def growOrder (hosts : List Host) : List Host := sortBotnet hosts

/-- Host visit order of the weaken dispatch loop (part_000 line 432:
backwards over the same array). -/
def weakenOrder (hosts : List Host) : List Host := (sortBotnet hosts).reverse

/-! ### ETA computation (optimizeServer, part_000 lines 394-407)

Source (weaken, lines 395-397; grow analogous with multiplier 3.2 and
buffer 3 * 20 at lines 404-406):
  etaWeaken.value = performance.now() + hackTime * WEAKEN_TIME_MULTIPLIER + TIMING_BUFFER_MS * 2;
  etaWeaken.value = Math.ceil((etaWeaken.value + TIMING_BUFFER_MS) / 100) * 100;
-/

/-- Safety margin, part_000 line 373: TIMING_BUFFER_MS = 20. -/
def TIMING_BUFFER_MS : ℚ := 20

/-- The ETA rounding step exactly as performed in part_000 lines 397 and 406:
Math.ceil((x + TIMING_BUFFER_MS) / 100) * 100. -/
def etaRound (x : ℚ) : ℤ := ⌈(x + TIMING_BUFFER_MS) / 100⌉ * 100

/-- The bare round-up-to-next-100ms operation, i.e. the rounding part of the
step without the 20 ms start buffer: Math.ceil(x / 100) * 100. -/
def roundUp100 (x : ℚ) : ℤ := ⌈x / 100⌉ * 100

/-! ### Worker dispatch delay (bin.grow, part_001 lines 13-16;
bin.weaken.js lines 19-22)

Source:
  const now = Date.now();
  const delay = Math.floor(Math.max(0, endTime - now - operationTime));
  await ns.grow(target, { additionalMsec: delay });
-/

/-- Per-process dispatch delay computed by the grow and weaken workers. -/
def workerDelay (endTime now operationTime : ℚ) : ℤ :=
  ⌊max 0 (endTime - now - operationTime)⌋

/-! ### Wait step (optimizeServer, part_000 lines 446-455 and 480-483)

Source:
  let nextEta = etaWeaken.value < etaGrow.value ? etaWeaken : etaGrow;
  if (nextEta.value < performance.now()) {
    nextEta = etaWeaken.value > etaGrow.value ? etaWeaken : etaGrow;
  }
  let waitTime = getWaitTime(nextEta.value);
  if (waitTime > 0) { await waitWithProgress(ns, waitTime, ...); }
  else { await waitWithProgress(ns, 3000, 'fehler: ETAs abgelaufen ...'); }

  function getWaitTime(eta) {
    let waitTime = eta - performance.now();
    return Math.max(waitTime, 0);
  }

The two performance.now() reads inside the step are modelled as the same
polling instant `now`. -/

/-- getWaitTime, part_000 lines 480-483. -/
def getWaitTime (eta now : ℚ) : ℚ := max (eta - now) 0

/-- The ETA selected by the wait step (part_000 lines 446-449). -/
def pickEta (etaW etaG now : ℚ) : ℚ :=
  let next := if etaW < etaG then etaW else etaG
  if next < now then (if etaW > etaG then etaW else etaG) else next

/-- The number of milliseconds the wait step actually waits
(part_000 lines 450-455). -/
def waitDuration (etaW etaG now : ℚ) : ℚ :=
  let waitTime := getWaitTime (pickEta etaW etaG now) now
  if waitTime > 0 then waitTime else 3000

/-! ### The optimizeServer loop (part_000 lines 341-510)

The loop is embedded as a fuel-bounded transition function that records a
trace of events: one `pass` event per loop-body iteration, a `dispatch`
event for every allocation loop that runs, and a `wait` event for every
waitWithProgress call.  Everything the Netscript API answers is an
observation field of `OptEnv`, indexed by the iteration counter where the
read happens once per iteration.  Log-only state (growBatchNumber, ns.print
strings) and the pid arrays are not modelled: the pid bookkeeping feeds only
the liveness sums runGrows / runWeaken, which are environment observations
(ns.getRunningScript polls). -/

/-- Per-host observations for one iteration: the free slot counts read by
executeOnBot during the grow pass and during the weaken pass (the RAM is
re-read at every call), and whether ns.exec succeeds there. -/
structure BotObs where
  slotsG : ℤ
  execG : Bool
  slotsW : ℤ
  execW : Bool

/-- Environment oracle for one run of optimizeServer.  Fields tagged with an
iteration index are the values the game returns at that read point of
iteration i. -/
structure OptEnv where
  /-- ns.serverExists(target), line 344. -/
  serverExists : Bool
  /-- entry reads, lines 348-351 -/
  minSec0 : ℚ
  actualSec0 : ℚ
  maxMoney0 : ℚ
  actualMoney0 : ℚ
  /-- the sorted rooted botnet with its per-host observations, lines 376-377 -/
  bots : ℕ → List BotObs
  /-- ns.getHackTime(target), line 384 -/
  hackTime : ℕ → ℚ
  /-- live grow threads summed over the recorded pids, line 387 -/
  runGrows : ℕ → ℤ
  /-- live weaken threads summed over the recorded pids, line 388 -/
  runWeaken : ℕ → ℤ
  /-- performance.now() at the weaken-ETA computation, line 395 -/
  nowEtaW : ℕ → ℚ
  /-- performance.now() at the grow-ETA computation, line 404 -/
  nowEtaG : ℕ → ℚ
  /-- ns.getServerMaxMoney / MoneyAvailable, lines 415-416 -/
  maxMoneyMid : ℕ → ℚ
  actualMoneyMid : ℕ → ℚ
  /-- performance.now() during the wait step, lines 447-455 -/
  nowWait : ℕ → ℚ
  /-- ns.getServerMaxMoney / MoneyAvailable after the wait, lines 458-459 -/
  maxMoneyEnd : ℕ → ℚ
  actualMoneyEnd : ℕ → ℚ
  /-- performance.now() in the last-weaken wait, line 463 -/
  nowMoneyWait : ℕ → ℚ
  /-- ns.getServerMinSecurityLevel / SecurityLevel, lines 466-467 -/
  minSecEnd : ℕ → ℚ
  actualSecEnd : ℕ → ℚ
  /-- performance.now() in the final drain, line 474 -/
  nowFinal : ℚ

/-- Mutable locals of optimizeServer that survive across iterations. -/
structure OptState where
  etaW : ℚ
  etaG : ℚ
  moneyDiff : ℚ
  secDiff : ℚ
  minSec : ℚ
  actualSec : ℚ
  maxMoney : ℚ
  actualMoney : ℚ

/-- Observable events of a run. -/
inductive OptEvent where
  /-- one execution of the loop body (one allocation/dispatch pass) -/
  | pass
  /-- one allocation loop ran: kind (true = grow), per-host assignments,
  residual threads -/
  | dispatch (isGrow : Bool) (assigned : List ℤ) (residual : ℤ)
  /-- one waitWithProgress(ns, ms, ...) invocation -/
  | wait (ms : ℚ)

/-- Event is a wait. -/
def OptEvent.isWait : OptEvent → Bool
  | .wait _ => true
  | _ => false

/-- Event is a loop-body pass. -/
def OptEvent.isPass : OptEvent → Bool
  | .pass => true
  | _ => false

/-- One iteration of the while loop (part_000 lines 375-469).  Returns the
new state, the events of this iteration, and whether the body hit the
forceRun break (line 439-442). -/
def loopBody (env : OptEnv) (forceRun : Bool) (i : ℕ) (s : OptState) :
    OptState × List OptEvent × Bool :=
  let bots := env.bots i
  -- lines 380-381: count the free slots
  let freeSlots : ℤ := (bots.map (fun b => b.slotsG)).sum
  let hackTime := env.hackTime i
  let runG := env.runGrows i
  let runW := env.runWeaken i
  -- lines 391-399: weaken branch
  let maxSlots₁ := if runW > 0 then freeSlots + runW else freeSlots
  let etaW := if runW > 0 then s.etaW
    else ((etaRound (env.nowEtaW i + hackTime * 4 + TIMING_BUFFER_MS * 2) : ℤ) : ℚ)
  -- lines 400-408: grow branch
  let maxSlots₂ := if runG > 0 then maxSlots₁ + runG else maxSlots₁
  let etaG := if runG > 0 then s.etaG
    else ((etaRound (env.nowEtaG i + hackTime * (16 / 5) + TIMING_BUFFER_MS * 3) : ℤ) : ℚ)
  -- lines 411-412: thread split
  let weakT := weakThreads maxSlots₂
  let growT := maxSlots₂ - weakT
  -- lines 415-416: status reads (moneyDiff is NOT updated here)
  let maxMoneyM := env.maxMoneyMid i
  let actualMoneyM := env.actualMoneyMid i
  -- lines 419-427: grow dispatch (forwards over botnet)
  let growEvs :=
    if runG = 0 ∧ s.moneyDiff > 0 then
      let a := allocPass (bots.map (fun b => (b.slotsG, b.execG))) growT
      [OptEvent.dispatch true a.1 a.2]
    else []
  -- lines 430-437: weaken dispatch (backwards over botnet)
  let weakEvs :=
    if runW = 0 then
      let a := allocPass ((bots.map (fun b => (b.slotsW, b.execW))).reverse) weakT
      [OptEvent.dispatch false a.1 a.2]
    else []
  if forceRun then
    -- lines 439-442: break before the wait step
    ({ s with etaW := etaW, etaG := etaG,
              maxMoney := maxMoneyM, actualMoney := actualMoneyM },
     OptEvent.pass :: (growEvs ++ weakEvs), true)
  else
    -- lines 446-455: wait on the next ETA (or the 3000 ms fallback)
    let w₁ := OptEvent.wait (waitDuration etaW etaG (env.nowWait i))
    -- lines 458-464: money update and last-weaken wait
    let moneyDiff' := env.maxMoneyEnd i - env.actualMoneyEnd i
    let w₂ := if moneyDiff' = 0 then [OptEvent.wait (etaW - env.nowMoneyWait i)] else []
    -- lines 466-468: security update
    let s' : OptState :=
      { etaW := etaW, etaG := etaG,
        moneyDiff := moneyDiff',
        secDiff := env.actualSecEnd i - env.minSecEnd i,
        minSec := env.minSecEnd i, actualSec := env.actualSecEnd i,
        maxMoney := env.maxMoneyEnd i, actualMoney := env.actualMoneyEnd i }
    (s', OptEvent.pass :: (growEvs ++ weakEvs) ++ (w₁ :: w₂), false)

/-- Fuel-bounded while loop (part_000 line 375: while actualSec > minSec or
actualMoney < maxMoney or forceRun).  Returns the trace and the final state. -/
def optLoop (env : OptEnv) (forceRun : Bool) :
    ℕ → ℕ → OptState → List OptEvent × OptState
  | 0, _, s => ([], s)
  | fuel + 1, i, s =>
    if s.actualSec > s.minSec ∨ s.actualMoney < s.maxMoney ∨ forceRun = true then
      let step := loopBody env forceRun i s
      if step.2.2 then (step.2.1, step.1)
      else
        let rest := optLoop env forceRun fuel (i + 1) step.1
        (step.2.1 ++ rest.1, rest.2)
    else ([], s)

/-- optimizeServer, part_000 lines 341-510: the entry check (throw if the
target does not exist), the loop, and the final drain wait (lines 471-478,
skipped when forceRun). -/
def optimizeServer (env : OptEnv) (forceRun : Bool) (fuel : ℕ) :
    Except String (List OptEvent) :=
  if env.serverExists = false then
    Except.error "Server existiert nicht"
  else
    let s₀ : OptState :=
      { etaW := 0, etaG := 0,
        moneyDiff := env.maxMoney0 - env.actualMoney0,
        secDiff := env.actualSec0 - env.minSec0,
        minSec := env.minSec0, actualSec := env.actualSec0,
        maxMoney := env.maxMoney0, actualMoney := env.actualMoney0 }
    let run := optLoop env forceRun fuel 0 s₀
    let drain :=
      if forceRun = false then
        let wt := max run.2.etaW run.2.etaG - env.nowFinal
        if wt > 0 then [OptEvent.wait wt] else []
      else []
    Except.ok (run.1 ++ drain)

/-! ### localStorage persistence (lib.config.js lines 236-298)

saveToStorage stringifies a wrapper object { type, data } into localStorage;
loadFromStorage parses it back and dispatches on the type tag.  Because
JSON.parse(JSON.stringify(x)) is the identity on JSON values, the store is
modelled as holding the parsed JSON value of the stored text directly
(type `JVal`); JSON.stringify is modelled as the map from JS values to the
JSON value of the produced text. -/

/-- A JSON value (the result of JSON.parse on the stored text). -/
inductive JVal where
  | null
  | bool (b : Bool)
  | num (q : ℚ)
  | str (s : String)
  | arr (elems : List JVal)
  | obj (props : List (String × JVal))

/-- A JavaScript runtime value of the shapes this storage layer handles.
Sets, Maps and Dates carry their abstract contents; `obj` is a plain object. -/
inductive JSVal where
  | null
  | undef
  | bool (b : Bool)
  | num (q : ℚ)
  | str (s : String)
  | date (t : ℤ)
  | arr (elems : List JSVal)
  | set (elems : List JSVal)
  | map (entries : List (JSVal × JSVal))
  | obj (props : List (String × JSVal))

/-- value.constructor.name as used in saveToStorage (lib.config.js line 267).
null and undefined are guarded before this is read. -/
def ctorName : JSVal → String
  | .null => "Null"
  | .undef => "Undefined"
  | .bool _ => "Boolean"
  | .num _ => "Number"
  | .str _ => "String"
  | .date _ => "Date"
  | .arr _ => "Array"
  | .set _ => "Set"
  | .map _ => "Map"
  | .obj _ => "Object"

/-- Model of Date.prototype.toJSON, which JSON.stringify invokes on a Date.
The real output is an ISO-8601 string of the epoch milliseconds; only its
injectivity and invertibility by the Date constructor matter to this layer,
so the text is abstracted as a sign character plus a unary digit string. -/
def dateToJson (t : ℤ) : String :=
  String.mk (if t < 0 then '-' :: List.replicate t.natAbs 'i'
             else List.replicate t.natAbs 'i')

/-- Model of new Date(isoString).getTime(): the inverse of `dateToJson`. -/
def jsonToDate (s : String) : ℤ :=
  match s.data with
  | [] => 0
  | c :: rest => if c = '-' then -(rest.length : ℤ) else (rest.length + 1 : ℤ)

/-- SameValueZero, the equality JS Sets and Map keys use: value equality on
primitives; distinct heap objects (arrays, plain objects, dates, sets, maps
freshly produced by JSON.parse) are never equal. -/
def sameValueZero : JSVal → JSVal → Bool
  | .num a, .num b => a == b
  | .str a, .str b => a == b
  | .bool a, .bool b => a == b
  | .null, .null => true
  | .undef, .undef => true
  | _, _ => false

mutual

/-- JSON.stringify semantics on the modelled JS values, expressed as the JSON
value of the produced text: undefined is dropped (none), Dates serialize via
toJSON, Sets and Maps have no enumerable own properties and become {},
undefined inside arrays becomes null, undefined-valued object properties are
omitted. -/
def jsonify : JSVal → Option JVal
  | .null => some .null
  | .undef => none
  | .bool b => some (.bool b)
  | .num q => some (.num q)
  | .str s => some (.str s)
  | .date t => some (.str (dateToJson t))
  | .arr l => some (.arr (jsonifyList l))
  | .set _ => some (.obj [])
  | .map _ => some (.obj [])
  | .obj props => some (.obj (jsonifyProps props))

/-- Array elements under JSON.stringify: undefined becomes null. -/
def jsonifyList : List JSVal → List JVal
  | [] => []
  | v :: vs => ((jsonify v).getD .null) :: jsonifyList vs

/-- Object properties under JSON.stringify: undefined-valued ones are omitted. -/
def jsonifyProps : List (String × JSVal) → List (String × JVal)
  | [] => []
  | (k, v) :: ps =>
    match jsonify v with
    | some jv => (k, jv) :: jsonifyProps ps
    | none => jsonifyProps ps

end

mutual

/-- The JS value produced by JSON.parse of a JSON value: numbers, strings,
booleans, null, arrays and plain objects. -/
def jsOfJson : JVal → JSVal
  | .null => .null
  | .bool b => .bool b
  | .num q => .num q
  | .str s => .str s
  | .arr l => .arr (jsOfJsonList l)
  | .obj props => .obj (jsOfJsonProps props)

/-- Elementwise `jsOfJson`. -/
def jsOfJsonList : List JVal → List JSVal
  | [] => []
  | v :: vs => jsOfJson v :: jsOfJsonList vs

/-- Propertywise `jsOfJson`. -/
def jsOfJsonProps : List (String × JVal) → List (String × JSVal)
  | [] => []
  | (k, v) :: ps => (k, jsOfJson v) :: jsOfJsonProps ps

end

/-- The persisted key-value store (localStorage), holding parsed JSON values. -/
abbrev Store := List (String × JVal)

/-- localStorage.removeItem. -/
def storeRemove (st : Store) (key : String) : Store :=
  st.filter (fun p => p.1 != key)

/-- localStorage.setItem (replaces any previous binding of the key). -/
def storeSet (st : Store) (key : String) (v : JVal) : Store :=
  (key, v) :: storeRemove st key

/-- saveToStorage, lib.config.js lines 258-273: null/undefined remove the
key; otherwise a wrapper { type: value.constructor.name, data } is
stringified and stored, where data is the entries array for a Map, the
element array for a Set, and the value itself otherwise. -/
def saveToStorage (st : Store) (key : String) (value : JSVal) : Store :=
  match value with
  | .null => storeRemove st key
  | .undef => storeRemove st key
  | v =>
    let data : JSVal :=
      match v with
      | .map entries => .arr (entries.map (fun e => .arr [e.1, e.2]))
      | .set elems => .arr elems
      | w => w
    let wrapper : JSVal := .obj [("type", .str (ctorName v)), ("data", data)]
    match jsonify wrapper with
    | some jv => storeSet st key jv
    | none => st

/-- wrapper.hasOwnProperty(name) on a parsed JSON object. -/
def hasProp (props : List (String × JVal)) (name : String) : Bool :=
  props.any (fun p => p.1 == name)

/-- Property access wrapper[name] on a parsed JSON object (the wrappers this
layer writes have unique keys, so first-match lookup is exact). -/
def getProp (props : List (String × JVal)) (name : String) : JVal :=
  match props.find? (fun p => p.1 == name) with
  | some p => p.2
  | none => .null

/-- Truncation toward zero, as ToIntegerOrInfinity does in new Date(number). -/
def ratTrunc (q : ℚ) : ℤ := if q < 0 then ⌈q⌉ else ⌊q⌋

/-- new Date(data) as invoked by restoreFromStorage: the stored data for a
Date is always its toJSON string; other argument shapes are not produced by
this storage layer. -/
def newDate : JSVal → JSVal
  | .str s => .date (jsonToDate s)
  | .num q => .date (ratTrunc q)
  | _ => .date 0

/-- Array.from(data): identity on arrays; the other iterable cases are not
produced by this storage layer. -/
def arrayFrom : JSVal → JSVal
  | .arr l => .arr l
  | v => v

/-- Set.prototype.add: appends unless an element SameValueZero-equal to x is
already present. -/
def setAdd (elems : List JSVal) (x : JSVal) : List JSVal :=
  if elems.any (fun e => sameValueZero e x) then elems else elems ++ [x]

/-- new Set(data): folds the iterated elements through `setAdd`; a
non-iterable argument (which would throw) is not produced by this layer. -/
def newSet : JSVal → JSVal
  | .arr l => .set (l.foldl setAdd [])
  | _ => .set []

/-- Map.prototype.set: overwrites the value at a SameValueZero-equal key,
else appends the entry. -/
def mapSet (entries : List (JSVal × JSVal)) (k v : JSVal) :
    List (JSVal × JSVal) :=
  if entries.any (fun e => sameValueZero e.1 k) then
    entries.map (fun e => if sameValueZero e.1 k then (e.1, v) else e)
  else entries ++ [(k, v)]

/-- One step of new Map(iterable): each iterated element is an array-like
entry [key, value] (missing positions read as undefined); a non-object
element would throw and is not produced by this layer. -/
def newMapAdd (entries : List (JSVal × JSVal)) : JSVal → List (JSVal × JSVal)
  | .arr (k :: v :: _) => mapSet entries k v
  | .arr [k] => mapSet entries k .undef
  | .arr [] => mapSet entries .undef .undef
  | _ => entries

/-- new Map(data): folds the iterated entries through Map.prototype.set. -/
def newMap : JSVal → JSVal
  | .arr l => .map (l.foldl newMapAdd [])
  | _ => .map []

/-- restoreFromStorage, lib.config.js lines 281-298: dispatch on the stored
type tag. -/
def convertToType (ty : JSVal) (data : JSVal) : JSVal :=
  match ty with
  | .str "Number" => data
  | .str "String" => data
  | .str "Boolean" => data
  | .str "Date" => newDate data
  | .str "Array" => arrayFrom data
  | .str "Set" => newSet data
  | .str "Map" => newMap data
  | _ => data

/-- loadFromStorage, lib.config.js lines 236-251: a missing key (getItem
null, falsy raw) yields null; a parsed object carrying both a type and a
data property is restored through `convertToType`; any other parsed value is
returned directly.  The catch branch (raw non-JSON text) is unreachable for
values this layer stored. -/
def loadFromStorage (st : Store) (key : String) : JSVal :=
  match st.lookup key with
  | none => .null
  | some jv =>
    match jv with
    | .obj props =>
      if hasProp props "type" && hasProp props "data" then
        convertToType (jsOfJson (getProp props "type"))
          (jsOfJson (getProp props "data"))
      else .obj (jsOfJsonProps props)
    | v => jsOfJson v

mutual

/-- A JS value is JSON-pure when JSON.stringify followed by JSON.parse
reproduces it exactly: primitives, null, and arrays / plain objects thereof. -/
def jsonPure : JSVal → Bool
  | .null => true
  | .bool _ => true
  | .num _ => true
  | .str _ => true
  | .undef => false
  | .date _ => false
  | .arr l => jsonPureList l
  | .set _ => false
  | .map _ => false
  | .obj props => jsonPureProps props

/-- Elementwise `jsonPure`. -/
def jsonPureList : List JSVal → Bool
  | [] => true
  | v :: vs => jsonPure v && jsonPureList vs

/-- Propertywise `jsonPure`. -/
def jsonPureProps : List (String × JSVal) → Bool
  | [] => true
  | (_, v) :: ps => jsonPure v && jsonPureProps ps

end

/-- No two list elements are SameValueZero-equal: the invariant every real
JS Set's element list satisfies. -/
def svzFree : List JSVal → Bool
  | [] => true
  | x :: xs => !(xs.any (fun y => sameValueZero x y)) && svzFree xs

/-- No two entry keys are SameValueZero-equal: the invariant every real
JS Map's entry list satisfies. -/
def svzFreeKeys : List (JSVal × JSVal) → Bool
  | [] => true
  | e :: es => !(es.any (fun f => sameValueZero e.1 f.1)) && svzFreeKeys es

/-- Round-trippable top-level values: the listed constructors, with JSON-pure
contents for Array/Set/Map, and the Set/Map distinctness invariants. -/
def topOk : JSVal → Bool
  | .num _ => true
  | .str _ => true
  | .bool _ => true
  | .date _ => true
  | .arr l => jsonPureList l
  | .set l => jsonPureList l && svzFree l
  | .map es => es.all (fun e => jsonPure e.1 && jsonPure e.2) && svzFreeKeys es
  | _ => false

/-! ### RingBuffer (part_000 lines 258-329)

A fixed-size cyclic buffer.  The constructor validates its argument (a JS
number, modelled as ℚ); the buffer proper is modelled for a validated
positive integer size.  Index arithmetic of the form
(this.currentIndex - k + this.size) % this.size is reassociated to
(currentIndex + size - k) to avoid ℕ underflow: for the values the guards
allow (k ≤ size, currentIndex < size) the two agree with the JS integer
arithmetic. -/

/-- The constructor guard, part_000 line 264:
!size or size <= 0 or !Number.isInteger(size).  (ℚ has no NaN; !size is
size == 0.) -/
def ringBufferCtorThrows (size : ℚ) : Bool :=
  size == 0 || decide (size ≤ 0) || !(size.den == 1)

/-- RingBuffer state: fixed size, backing array, write index, element count. -/
structure RingBuffer (α : Type) where
  size : ℕ
  buffer : List (Option α)
  currentIndex : ℕ
  count : ℕ

namespace RingBuffer

/-- A fresh buffer (part_000 lines 267-271): new Array(size).fill(null). -/
def make (α : Type) (size : ℕ) : RingBuffer α :=
  ⟨size, List.replicate size none, 0, 0⟩

/-- add, part_000 lines 279-286. -/
def add (rb : RingBuffer α) (x : α) : RingBuffer α :=
  { rb with
    buffer := rb.buffer.set rb.currentIndex (some x),
    currentIndex := (rb.currentIndex + 1) % rb.size,
    count := if rb.count < rb.size then rb.count + 1 else rb.count }

/-- current, part_000 lines 292-298. -/
def current (rb : RingBuffer α) : Option α :=
  if rb.count = 0 then none
  else rb.buffer.getD ((rb.currentIndex + rb.size - 1) % rb.size) none

/-- previous, part_000 lines 305-311. -/
def previous (rb : RingBuffer α) (steps : ℕ) : Option α :=
  if steps < 1 ∨ steps > rb.count then none
  else rb.buffer.getD ((rb.currentIndex + rb.size - steps) % rb.size) none

/-- isEmpty, part_000 lines 317-319. -/
def isEmpty (rb : RingBuffer α) : Bool := rb.count == 0

/-- clear, part_000 lines 324-328. -/
def clear (rb : RingBuffer α) : RingBuffer α :=
  { rb with buffer := List.replicate rb.size none, currentIndex := 0, count := 0 }

end RingBuffer

/-- An operation on a ring buffer: the mutating methods add and clear. -/
inductive RBOp (α : Type) where
  | add (x : α)
  | clear

/-- Apply one operation. -/
def applyOp (rb : RingBuffer α) : RBOp α → RingBuffer α
  | .add x => rb.add x
  | .clear => rb.clear

/-- The buffer reached from a fresh buffer of the given size by a sequence
of add/clear operations. -/
def runOps (α : Type) (size : ℕ) (ops : List (RBOp α)) : RingBuffer α :=
  ops.foldl applyOp (RingBuffer.make α size)

/-- Well-formedness of a ring buffer of declared size: the backing array
keeps its length, the write index stays in range, the element count never
exceeds the size, and the `count` most recently written slots are occupied. -/
def RBWF (size : ℕ) (rb : RingBuffer α) : Prop :=
  rb.size = size ∧ rb.buffer.length = size ∧ rb.currentIndex < size ∧
  rb.count ≤ size ∧
  ∀ j, 1 ≤ j → j ≤ rb.count →
    rb.buffer.getD ((rb.currentIndex + size - j) % size) none ≠ none

/-- A minimal concrete environment used to instantiate theorems about the
optimizeServer loop: the target exists, the botnet is empty, every oracle
read returns 0. -/
def envTrivial : OptEnv where
  serverExists := true
  minSec0 := 0
  actualSec0 := 0
  maxMoney0 := 0
  actualMoney0 := 0
  bots := fun _ => []
  hackTime := fun _ => 0
  runGrows := fun _ => 0
  runWeaken := fun _ => 0
  nowEtaW := fun _ => 0
  nowEtaG := fun _ => 0
  maxMoneyMid := fun _ => 0
  actualMoneyMid := fun _ => 0
  nowWait := fun _ => 0
  maxMoneyEnd := fun _ => 0
  actualMoneyEnd := fun _ => 0
  nowMoneyWait := fun _ => 0
  minSecEnd := fun _ => 0
  actualSecEnd := fun _ => 0
  nowFinal := 0

/-! ## Theorems -/

/-- C1: for every positive totalSlots, the thread split of optimizeServer
(part_000 lines 411-412) satisfies weakenThreads = ceil(totalSlots / 10)
(equivalently (totalSlots + 9) / 10) and
weakenThreads + growThreads = totalSlots. -/
theorem weakThreads_growThreads_split (n : ℤ) (h : 0 < n) :
    weakThreads n = ⌈(n : ℚ) / 10⌉ ∧
    weakThreads n = (n + 9) / 10 ∧
    weakThreads n + growThreads n = n := by
  refine ⟨rfl, ?_, by unfold growThreads; ring⟩
  unfold weakThreads
  have hx : (n : ℚ) / 10 = -(((-n : ℤ) : ℚ) / ((10 : ℕ) : ℚ)) := by
    push_cast; ring
  rw [hx, Int.ceil_neg, Rat.floor_intCast_div_natCast]
  omega

/-- Witness for C1 at totalSlots = 100. -/
theorem weakThreads_growThreads_split_witness :
    weakThreads 100 = ⌈(100 : ℚ) / 10⌉ ∧
    weakThreads 100 = (100 + 9) / 10 ∧
    weakThreads 100 + growThreads 100 = 100 :=
  weakThreads_growThreads_split 100 (by norm_num)

/-- Hosts skipped by the early break of the dispatch loop all get
assignment 0, which satisfies the per-host bounds. -/
theorem allocPass_zeros (bs : List (ℤ × Bool)) :
    List.Forall₂ (fun (a : ℤ) (b : ℤ × Bool) =>
      0 ≤ a ∧ a ≤ max b.1 0 ∧ (b.1 ≤ 0 → a = 0))
      (bs.map (fun _ => 0)) bs := by
  induction bs with
  | nil => exact List.Forall₂.nil
  | cons b bs ih =>
    exact List.Forall₂.cons ⟨le_refl 0, le_max_right _ _, fun _ => rfl⟩ ih

/-- Sum of an all-zero assignment list. -/
theorem sum_map_zero (bs : List (ℤ × Bool)) :
    (bs.map (fun _ => (0 : ℤ))).sum = 0 := by
  induction bs with
  | nil => rfl
  | cons b bs ih => simpa using ih

/-- The per-host guarantees of a single executeOnBot call: the recorded
assignment is nonnegative, bounded by the host's free slots, zero when the
host offers none, and assignment plus remainder is the request. -/
theorem executeOnBot_spec (slots : ℤ) (ok : Bool) (r : ℤ) (hr : 0 < r) :
    0 ≤ (executeOnBot slots ok r).1 ∧
    (executeOnBot slots ok r).1 ≤ max slots 0 ∧
    (slots ≤ 0 → (executeOnBot slots ok r).1 = 0) ∧
    (executeOnBot slots ok r).1 + (executeOnBot slots ok r).2 = r := by
  unfold executeOnBot
  by_cases hs : slots ≤ 0
  · simp [hs]
  · cases ok with
    | false => simp [hs]
    | true =>
      have hv : (if slots ≤ 0 then ((0 : ℤ), r)
          else if true = true then (min r slots, r - min r slots) else (0, r)) =
          (min r slots, r - min r slots) := by
        simp [hs]
      rw [hv]
      refine ⟨?_, ?_, fun hc => absurd hc hs, ?_⟩ <;> simp <;> omega

/-- C2: one allocation pass (iterated executeOnBot, part_000 lines 422-435
and 497-508) assigns each host a nonnegative count of at most its free slot
count, assigns 0 to hosts with zero or negative free slots, and the
assignments plus the returned residual sum to the requested count. -/
theorem allocPass_spec (bots : List (ℤ × Bool)) (r : ℤ) :
    List.Forall₂ (fun (a : ℤ) (b : ℤ × Bool) =>
      0 ≤ a ∧ a ≤ max b.1 0 ∧ (b.1 ≤ 0 → a = 0)) (allocPass bots r).1 bots ∧
    (allocPass bots r).1.sum + (allocPass bots r).2 = r := by
  induction bots generalizing r with
  | nil => exact ⟨List.Forall₂.nil, by simp [allocPass]⟩
  | cons b bs ih =>
    by_cases hr : r ≤ 0
    · constructor
      · simpa [allocPass, hr] using allocPass_zeros (b :: bs)
      · simp [allocPass, hr, sum_map_zero]
    · obtain ⟨hb1, hb2, hb3, hb4⟩ := executeOnBot_spec b.1 b.2 r (by omega)
      obtain ⟨ih1, ih2⟩ := ih (executeOnBot b.1 b.2 r).2
      constructor
      · simp only [allocPass, if_neg hr]
        exact List.Forall₂.cons ⟨hb1, hb2, hb3⟩ ih1
      · simp only [allocPass, if_neg hr, List.sum_cons]
        omega

/-- Witness for C2: the spec scenario hosts {50, 30, 0, 20} with 70
requested grow threads. -/
theorem allocPass_spec_witness :
    List.Forall₂ (fun (a : ℤ) (b : ℤ × Bool) =>
      0 ≤ a ∧ a ≤ max b.1 0 ∧ (b.1 ≤ 0 → a = 0))
      (allocPass [(50, true), (30, true), (0, true), (20, true)] 70).1
      [(50, true), (30, true), (0, true), (20, true)] ∧
    (allocPass [(50, true), (30, true), (0, true), (20, true)] 70).1.sum +
      (allocPass [(50, true), (30, true), (0, true), (20, true)] 70).2 = 70 :=
  allocPass_spec [(50, true), (30, true), (0, true), (20, true)] 70

/-- C3 counterexample: the code orders the botnet by descending maximum RAM
(part_000 lines 376-377), not by descending free capacity.  With a big but
nearly full host and a small empty host, the grow pass visits the host with
the smaller free capacity first. -/
theorem growOrder_not_descending_free_capacity :
    growOrder [⟨"big", 8, 7⟩, ⟨"small", 4, 0⟩] =
      [⟨"big", 8, 7⟩, ⟨"small", 4, 0⟩] ∧
    hostFreeSlots ⟨"big", 8, 7⟩ < hostFreeSlots ⟨"small", 4, 0⟩ ∧
    ¬ List.Pairwise (fun a b => hostFreeSlots b ≤ hostFreeSlots a)
      (growOrder [⟨"big", 8, 7⟩, ⟨"small", 4, 0⟩]) := by
  have horder : growOrder [(⟨"big", 8, 7⟩ : Host), ⟨"small", 4, 0⟩] =
      [⟨"big", 8, 7⟩, ⟨"small", 4, 0⟩] := by
    decide
  have hbig : hostFreeSlots ⟨"big", 8, 7⟩ = 0 := by
    unfold hostFreeSlots SCRIPT_RAM_COST
    have hv : ((8 : ℚ) - 7) / (7 / 4) = 4 / 7 := by norm_num
    rw [hv, Int.floor_eq_iff] <;> norm_num
  have hsmall : hostFreeSlots ⟨"small", 4, 0⟩ = 2 := by
    unfold hostFreeSlots SCRIPT_RAM_COST
    have hv : ((4 : ℚ) - 0) / (7 / 4) = 16 / 7 := by norm_num
    rw [hv, Int.floor_eq_iff] <;> norm_num
  refine ⟨horder, by rw [hbig, hsmall]; norm_num, ?_⟩
  rw [horder]
  intro hp
  have hcon := (List.pairwise_cons.1 hp).1 ⟨"small", 4, 0⟩ (by simp)
  rw [hbig, hsmall] at hcon
  norm_num at hcon

/-- C3 amended: the grow allocation pass visits the rooted hosts in order of
descending maximum RAM (total capacity), a permutation of the host list, and
the weaken allocation pass visits the same list in reverse. -/
theorem botnetOrder_spec (hosts : List Host) :
    List.Pairwise (fun a b => b.maxRam ≤ a.maxRam) (growOrder hosts) ∧
    (growOrder hosts).Perm hosts ∧
    weakenOrder hosts = (growOrder hosts).reverse := by
  refine ⟨?_, List.perm_insertionSort _ hosts, rfl⟩
  haveI : IsTotal Host (fun a b => b.maxRam ≤ a.maxRam) := ⟨fun a b => le_total _ _⟩
  haveI : IsTrans Host (fun a b => b.maxRam ≤ a.maxRam) :=
    ⟨fun a b c h1 h2 => le_trans h2 h1⟩
  exact List.sorted_insertionSort _ hosts

/-- C4: the per-process dispatch delay of the grow and weaken workers is
never negative, and is exactly 0 as soon as the natural duration alone
exceeds the time remaining until the target. -/
theorem workerDelay_spec (endTime now operationTime : ℚ) :
    0 ≤ workerDelay endTime now operationTime ∧
    (endTime - now < operationTime → workerDelay endTime now operationTime = 0) := by
  unfold workerDelay
  refine ⟨Int.floor_nonneg.2 (le_max_left 0 _), fun h => ?_⟩
  rw [max_eq_left (by linarith), Int.floor_zero]

/-- Witness for C4: endTime 100, now 50, operationTime 200: the natural
duration exceeds the 50 ms remaining, the delay clamps to 0. -/
theorem workerDelay_spec_witness :
    0 ≤ workerDelay 100 50 200 ∧ workerDelay 100 50 200 = 0 :=
  ⟨(workerDelay_spec 100 50 200).1, (workerDelay_spec 100 50 200).2 (by norm_num)⟩

/-- C5 counterexample: 1000 is aligned to a 100 ms boundary, yet the
rounding step exactly as performed when computing etaWeaken and etaGrow
(part_000 lines 397 and 406, which first adds the 20 ms start buffer)
returns 1100, not 1000. -/
theorem etaRound_moves_aligned_timestamp :
    (∃ k : ℤ, (1000 : ℚ) = 100 * k) ∧ etaRound 1000 ≠ 1000 := by
  refine ⟨⟨10, by norm_num⟩, ?_⟩
  have h : etaRound 1000 = 1100 := by
    unfold etaRound TIMING_BUFFER_MS
    have h1 : ((1000 : ℚ) + 20) / 100 = 51 / 5 := by norm_num
    have h2 : ⌈(51 : ℚ) / 5⌉ = 11 := by
      rw [Int.ceil_eq_iff] <;> norm_num
    rw [h1, h2]; norm_num
  rw [h]; norm_num

/-- C5 amended: the bare round-up-to-next-100ms operation (the
Math.ceil(x / 100) * 100 applied after the 20 ms start buffer has been
added) fixes every 100ms-aligned timestamp and is idempotent; the full step
as performed, which first adds the 20 ms buffer, maps an aligned timestamp t
to t + 100. -/
theorem roundUp100_idempotent_spec :
    (∀ k : ℤ, roundUp100 ((100 * k : ℤ) : ℚ) = 100 * k) ∧
    (∀ x : ℚ, roundUp100 ((roundUp100 x : ℤ) : ℚ) = roundUp100 x) ∧
    (∀ k : ℤ, etaRound ((100 * k : ℤ) : ℚ) = 100 * k + 100) := by
  have h1 : ∀ k : ℤ, roundUp100 ((100 * k : ℤ) : ℚ) = 100 * k := by
    intro k
    unfold roundUp100
    have hq : (((100 * k : ℤ) : ℚ)) / 100 = ((k : ℤ) : ℚ) := by push_cast; ring
    rw [hq, Int.ceil_intCast]; ring
  refine ⟨h1, ?_, ?_⟩
  · intro x
    have hx : roundUp100 x = 100 * ⌈x / 100⌉ := by unfold roundUp100; ring
    rw [hx]
    exact h1 ⌈x / 100⌉
  · intro k
    unfold etaRound TIMING_BUFFER_MS
    have hq : (((100 * k : ℤ) : ℚ) + 20) / 100 = 1 / 5 + ((k : ℤ) : ℚ) := by
      push_cast; ring
    have hc : ⌈(1 / 5 : ℚ)⌉ = 1 := by
      rw [Int.ceil_eq_iff] <;> norm_num
    rw [hq, Int.ceil_add_int, hc]; ring

/-- With forceRun = true the loop body records its pass event and possible
dispatch events, records no wait event, and signals the break of part_000
lines 439-442. -/
theorem loopBody_forceRun_counts (env : OptEnv) (i : ℕ) (s : OptState) :
    (((loopBody env true i s).2.1).filter OptEvent.isWait).length = 0 ∧
    (((loopBody env true i s).2.1).filter OptEvent.isPass).length = 1 ∧
    (loopBody env true i s).2.2 = true := by
  simp only [loopBody]
  split_ifs <;> simp [OptEvent.isWait, OptEvent.isPass]

/-- C6: for an existing target, optimizeServer with forceRun = true performs
exactly one allocation/dispatch pass of its loop and returns without ever
invoking the wait primitive, neither in the loop nor in the final drain. -/
theorem forceRun_single_pass (env : OptEnv) (fuel : ℕ)
    (hex : env.serverExists = true) (hf : 1 ≤ fuel) :
    ∃ evs, optimizeServer env true fuel = Except.ok evs ∧
      (evs.filter OptEvent.isWait).length = 0 ∧
      (evs.filter OptEvent.isPass).length = 1 := by
  obtain ⟨f, rfl⟩ : ∃ f, fuel = f + 1 := ⟨fuel - 1, by omega⟩
  have hcond : ¬ (env.serverExists = false) := by rw [hex]; simp
  obtain ⟨hw, hp, hb⟩ := loopBody_forceRun_counts env 0
    { etaW := 0, etaG := 0,
      moneyDiff := env.maxMoney0 - env.actualMoney0,
      secDiff := env.actualSec0 - env.minSec0,
      minSec := env.minSec0, actualSec := env.actualSec0,
      maxMoney := env.maxMoney0, actualMoney := env.actualMoney0 }
  refine ⟨_, ?_, hw, hp⟩
  unfold optimizeServer
  rw [if_neg hcond]
  simp only [optLoop, or_true, eq_self_iff_true, if_true, hb, Bool.true_eq_false,
    if_false, List.append_nil]

/-- Witness for C6: the trivial environment with fuel 1. -/
theorem forceRun_single_pass_witness :
    ∃ evs, optimizeServer envTrivial true 1 = Except.ok evs ∧
      (evs.filter OptEvent.isWait).length = 0 ∧
      (evs.filter OptEvent.isPass).length = 1 :=
  forceRun_single_pass envTrivial 1 rfl (le_refl 1)

/-- C7: optimizeServer fails if and only if the target host does not exist
at entry (part_000 lines 344-346); no other condition produces an error. -/
theorem optimizeServer_error_iff (env : OptEnv) (forceRun : Bool) (fuel : ℕ) :
    (∃ msg, optimizeServer env forceRun fuel = Except.error msg) ↔
      env.serverExists = false := by
  unfold optimizeServer
  by_cases h : env.serverExists = false
  · simp [h]
  · simp [h]

/-- C8 counterexample to the claim as stated: with etaWeaken exactly at the
polling instant and etaGrow 100 ms in the future, an ETA lies in the future
yet the scheduler takes the fixed 3000 ms fallback, which is the wait until
neither ETA. -/
theorem waitStep_fallback_despite_future_eta :
    (100 : ℚ) < 200 ∧
    waitDuration 100 200 100 = 3000 ∧
    waitDuration 100 200 100 ≠ 200 - 100 ∧
    waitDuration 100 200 100 ≠ 100 - 100 := by
  norm_num [waitDuration, pickEta, getWaitTime]

/-- C8 amended: if both ETAs are strictly past at polling time the wait step
waits the fixed 3000 ms fallback; if at least one ETA is strictly in the
future and the earlier ETA is not exactly the polling instant, it waits the
strictly positive time remaining until the chosen ETA (which is one of the
two ETAs). -/
theorem waitStep_spec (etaW etaG now : ℚ) :
    (etaW < now → etaG < now → waitDuration etaW etaG now = 3000) ∧
    (now < max etaW etaG → min etaW etaG ≠ now →
      now < pickEta etaW etaG now ∧
      (pickEta etaW etaG now = etaW ∨ pickEta etaW etaG now = etaG) ∧
      waitDuration etaW etaG now = pickEta etaW etaG now - now) := by
  constructor
  · intro h1 h2
    have hpick : pickEta etaW etaG now < now := by
      simp only [pickEta]
      split_ifs <;> linarith
    simp only [waitDuration, getWaitTime]
    rw [max_eq_right (by linarith)]
    norm_num
  · intro hfut hne
    have hpos : now < pickEta etaW etaG now := by
      simp only [pickEta]
      by_cases hW : etaW < etaG
      · rw [if_pos hW]
        by_cases hn : etaW < now
        · rw [if_pos hn, if_neg (by linarith : ¬ etaW > etaG)]
          have hmax : max etaW etaG = etaG := max_eq_right (le_of_lt hW)
          rw [hmax] at hfut
          exact hfut
        · rw [if_neg hn]
          have hmin : min etaW etaG = etaW := min_eq_left (le_of_lt hW)
          rw [hmin] at hne
          exact lt_of_le_of_ne (not_lt.1 hn) (Ne.symm hne)
      · rw [if_neg hW]
        by_cases hn : etaG < now
        · rw [if_pos hn]
          by_cases hgt : etaW > etaG
          · rw [if_pos hgt]
            have hmax : max etaW etaG = etaW := max_eq_left (not_lt.1 hW)
            rw [hmax] at hfut
            exact hfut
          · rw [if_neg hgt]
            have heq : etaW = etaG := le_antisymm (not_lt.1 hgt) (not_lt.1 hW)
            have hmax : max etaW etaG = etaW := max_eq_left (not_lt.1 hW)
            rw [hmax] at hfut
            rw [heq] at hfut
            linarith
        · rw [if_neg hn]
          have hmin : min etaW etaG = etaG := min_eq_right (not_lt.1 hW)
          rw [hmin] at hne
          exact lt_of_le_of_ne (not_lt.1 hn) (Ne.symm hne)
    refine ⟨hpos, ?_, ?_⟩
    · simp only [pickEta]
      split_ifs <;> simp
    · simp only [waitDuration, getWaitTime]
      rw [max_eq_left (by linarith)]
      rw [if_pos (by linarith)]

/-- Witness for C8 at concrete inputs: both-past gives the 3000 ms fallback;
one-future waits until the later ETA. -/
theorem waitStep_spec_witness :
    waitDuration 0 1 5 = 3000 ∧
    (5 : ℚ) < pickEta 3 9 5 ∧
    (pickEta 3 9 5 = 3 ∨ pickEta 3 9 5 = 9) ∧
    waitDuration 3 9 5 = pickEta 3 9 5 - 5 := by
  have ha := (waitStep_spec 0 1 5).1 (by norm_num) (by norm_num)
  have hb := (waitStep_spec 3 9 5).2 (by norm_num [max_def]) (by norm_num [min_def])
  exact ⟨ha, hb.1, hb.2.1, hb.2.2⟩

/-- The modelled Date serialization is inverted exactly by the modelled Date
constructor. -/
theorem jsonToDate_dateToJson (t : ℤ) : jsonToDate (dateToJson t) = t := by
  by_cases ht : t < 0
  · have hd : dateToJson t = String.mk ('-' :: List.replicate t.natAbs 'i') := by
      unfold dateToJson; rw [if_pos ht]
    rw [hd]
    show (if ('-' : Char) = '-' then -(((List.replicate t.natAbs 'i').length : ℕ) : ℤ)
          else (((List.replicate t.natAbs 'i').length : ℕ) : ℤ) + 1) = t
    rw [if_pos rfl, List.length_replicate]
    omega
  · have hd : dateToJson t = String.mk (List.replicate t.natAbs 'i') := by
      unfold dateToJson; rw [if_neg ht]
    rw [hd]
    cases hn : t.natAbs with
    | zero =>
      show (0 : ℤ) = t
      omega
    | succ n =>
      show (if ('i' : Char) = '-' then -(((List.replicate n 'i').length : ℕ) : ℤ)
            else (((List.replicate n 'i').length : ℕ) : ℤ) + 1) = t
      rw [if_neg (by decide), List.length_replicate]
      omega

mutual

/-- JSON-pure values survive stringify followed by parse unchanged. -/
theorem jsonify_pure_roundtrip :
    ∀ v : JSVal, jsonPure v = true → (jsonify v).map jsOfJson = some v
  | .null, _ => rfl
  | .bool _, _ => rfl
  | .num _, _ => rfl
  | .str _, _ => rfl
  | .undef, h => by simp [jsonPure] at h
  | .date _, h => by simp [jsonPure] at h
  | .set _, h => by simp [jsonPure] at h
  | .map _, h => by simp [jsonPure] at h
  | .arr l, h => by
    have hl := jsonifyList_pure_roundtrip l (by simpa [jsonPure] using h)
    simp [jsonify, jsOfJson, hl]
  | .obj ps, h => by
    have hp := jsonifyProps_pure_roundtrip ps (by simpa [jsonPure] using h)
    simp [jsonify, jsOfJson, hp]

/-- Elementwise version of the pure round trip. -/
theorem jsonifyList_pure_roundtrip :
    ∀ l : List JSVal, jsonPureList l = true → jsOfJsonList (jsonifyList l) = l
  | [], _ => rfl
  | v :: vs, h => by
    simp only [jsonPureList, Bool.and_eq_true] at h
    have hv := jsonify_pure_roundtrip v h.1
    obtain ⟨jv, hjv, hjs⟩ := Option.map_eq_some'.1 hv
    have hvs := jsonifyList_pure_roundtrip vs h.2
    simp [jsonifyList, jsOfJsonList, hjv, hjs, hvs]

/-- Propertywise version of the pure round trip. -/
theorem jsonifyProps_pure_roundtrip :
    ∀ ps : List (String × JSVal), jsonPureProps ps = true →
      jsOfJsonProps (jsonifyProps ps) = ps
  | [], _ => rfl
  | (k, v) :: ps, h => by
    simp only [jsonPureProps, Bool.and_eq_true] at h
    have hv := jsonify_pure_roundtrip v h.1
    obtain ⟨jv, hjv, hjs⟩ := Option.map_eq_some'.1 hv
    have hps := jsonifyProps_pure_roundtrip ps h.2
    simp [jsonifyProps, jsOfJsonProps, hjv, hjs, hps]

end

/-- The Boolean Set invariant as a Pairwise predicate. -/
theorem svzFree_pairwise (l : List JSVal) (h : svzFree l = true) :
    List.Pairwise (fun a b => sameValueZero a b = false) l := by
  induction l with
  | nil => exact List.Pairwise.nil
  | cons x xs ih =>
    simp only [svzFree, Bool.and_eq_true, Bool.not_eq_true'] at h
    refine List.Pairwise.cons (fun y hy => ?_) (ih h.2)
    have hany := h.1
    rw [List.any_eq_false] at hany
    simpa using hany y hy

/-- The Boolean Map-key invariant as a Pairwise predicate. -/
theorem svzFreeKeys_pairwise (es : List (JSVal × JSVal))
    (h : svzFreeKeys es = true) :
    List.Pairwise (fun a b => sameValueZero a.1 b.1 = false) es := by
  induction es with
  | nil => exact List.Pairwise.nil
  | cons e es ih =>
    simp only [svzFreeKeys, Bool.and_eq_true, Bool.not_eq_true'] at h
    refine List.Pairwise.cons (fun f hf => ?_) (ih h.2)
    have hany := h.1
    rw [List.any_eq_false] at hany
    simpa using hany f hf

/-- Folding Set.prototype.add over elements none of which collides with the
accumulator or each other appends them all. -/
theorem foldl_setAdd_eq : ∀ (l acc : List JSVal),
    (∀ a ∈ acc, ∀ b ∈ l, sameValueZero a b = false) →
    List.Pairwise (fun a b => sameValueZero a b = false) l →
    l.foldl setAdd acc = acc ++ l
  | [], acc, _, _ => by simp
  | x :: xs, acc, hdisj, hpw => by
    have hadd : setAdd acc x = acc ++ [x] := by
      unfold setAdd
      rw [if_neg ?hc]
      case hc =>
        simp only [List.any_eq_true, not_exists]
        intro a hcon
        have hfalse := hdisj a hcon.1 x (List.mem_cons_self x xs)
        rw [hcon.2] at hfalse
        simp at hfalse
    have hdisj' : ∀ a ∈ acc ++ [x], ∀ b ∈ xs, sameValueZero a b = false := by
      intro a ha b hb
      rcases List.mem_append.1 ha with hmem | hmem
      · exact hdisj a hmem b (List.mem_cons_of_mem _ hb)
      · have hax : a = x := by simpa using hmem
        subst hax
        exact (List.pairwise_cons.1 hpw).1 b hb
    calc (x :: xs).foldl setAdd acc
        = xs.foldl setAdd (setAdd acc x) := rfl
      _ = xs.foldl setAdd (acc ++ [x]) := by rw [hadd]
      _ = (acc ++ [x]) ++ xs := foldl_setAdd_eq xs (acc ++ [x]) hdisj'
            (List.pairwise_cons.1 hpw).2
      _ = acc ++ x :: xs := by simp

/-- new Set of the serialized element list of a real Set reproduces the
element list. -/
theorem newSet_roundtrip (l : List JSVal) (h : svzFree l = true) :
    newSet (.arr l) = .set l := by
  show JSVal.set (l.foldl setAdd []) = JSVal.set l
  rw [foldl_setAdd_eq l [] (by simp) (svzFree_pairwise l h)]
  simp

/-- Folding Map.prototype.set over serialized entries with fresh keys
appends them all. -/
theorem foldl_newMapAdd_eq : ∀ (es acc : List (JSVal × JSVal)),
    (∀ a ∈ acc, ∀ b ∈ es, sameValueZero a.1 b.1 = false) →
    List.Pairwise (fun a b => sameValueZero a.1 b.1 = false) es →
    (es.map (fun e => JSVal.arr [e.1, e.2])).foldl newMapAdd acc = acc ++ es
  | [], acc, _, _ => by simp
  | e :: es, acc, hdisj, hpw => by
    have hadd : newMapAdd acc (JSVal.arr [e.1, e.2]) = acc ++ [e] := by
      show mapSet acc e.1 e.2 = acc ++ [e]
      unfold mapSet
      rw [if_neg ?hc]
      case hc =>
        simp only [List.any_eq_true, not_exists]
        intro a hcon
        have hfalse := hdisj a hcon.1 e (List.mem_cons_self e es)
        rw [hcon.2] at hfalse
        simp at hfalse
    have hdisj' : ∀ a ∈ acc ++ [e], ∀ b ∈ es, sameValueZero a.1 b.1 = false := by
      intro a ha b hb
      rcases List.mem_append.1 ha with hmem | hmem
      · exact hdisj a hmem b (List.mem_cons_of_mem _ hb)
      · have hae : a = e := by simpa using hmem
        subst hae
        exact (List.pairwise_cons.1 hpw).1 b hb
    calc ((e :: es).map (fun e => JSVal.arr [e.1, e.2])).foldl newMapAdd acc
        = (es.map (fun e => JSVal.arr [e.1, e.2])).foldl newMapAdd
            (newMapAdd acc (JSVal.arr [e.1, e.2])) := rfl
      _ = (es.map (fun e => JSVal.arr [e.1, e.2])).foldl newMapAdd (acc ++ [e]) := by
            rw [hadd]
      _ = (acc ++ [e]) ++ es := foldl_newMapAdd_eq es (acc ++ [e]) hdisj'
            (List.pairwise_cons.1 hpw).2
      _ = acc ++ e :: es := by simp

/-- new Map of the serialized entry list of a real Map reproduces the entry
list. -/
theorem newMap_roundtrip (es : List (JSVal × JSVal)) (h : svzFreeKeys es = true) :
    newMap (.arr (es.map (fun e => JSVal.arr [e.1, e.2]))) = .map es := by
  show JSVal.map ((es.map (fun e => JSVal.arr [e.1, e.2])).foldl newMapAdd []) =
    JSVal.map es
  rw [foldl_newMapAdd_eq es [] (by simp) (svzFreeKeys_pairwise es h)]
  simp

/-- Serialized Map entries are JSON-pure when keys and values are. -/
theorem jsonPureList_mapEntries (es : List (JSVal × JSVal))
    (h : es.all (fun e => jsonPure e.1 && jsonPure e.2) = true) :
    jsonPureList (es.map (fun e => JSVal.arr [e.1, e.2])) = true := by
  induction es with
  | nil => rfl
  | cons e es ih =>
    simp only [List.all_cons, Bool.and_eq_true] at h
    simp only [List.map_cons, jsonPureList, Bool.and_eq_true]
    exact ⟨by simp [jsonPure, jsonPureList, h.1.1, h.1.2], ih h.2⟩

/-- localStorage.removeItem really removes the binding. -/
theorem lookup_storeRemove (st : Store) (key : String) :
    (storeRemove st key).lookup key = none := by
  induction st with
  | nil => rfl
  | cons p st ih =>
    unfold storeRemove at ih ⊢
    by_cases hp : p.1 = key
    · have hb : (p.1 != key) = false := by simp [hp]
      simpa [List.filter_cons, hb] using ih
    · have hb : (p.1 != key) = true := bne_iff_ne.2 hp
      have hk : (key == p.1) = false := beq_eq_false_iff_ne.2 (Ne.symm hp)
      simp [List.filter_cons, hb, List.lookup, hk, ih]

/-- localStorage.getItem right after setItem of the same key. -/
theorem lookup_storeSet (st : Store) (key : String) (v : JVal) :
    (storeSet st key v).lookup key = some v := by
  unfold storeSet
  simp [List.lookup]

/-- Reading back the key just written dispatches on the stored JSON value. -/
theorem loadFromStorage_storeSet (st : Store) (key : String) (jv : JVal) :
    loadFromStorage (storeSet st key jv) key =
      (match jv with
       | .obj props =>
         if hasProp props "type" && hasProp props "data" then
           convertToType (jsOfJson (getProp props "type"))
             (jsOfJson (getProp props "data"))
         else .obj (jsOfJsonProps props)
       | v => jsOfJson v) := by
  unfold loadFromStorage
  rw [lookup_storeSet]

/-- C9 amended: saveToStorage then loadFromStorage reproduces every value
whose constructor is Number, String, Boolean, Date, Array, Set or Map,
provided the contents of an Array/Set/Map are JSON-pure (Maps and Sets come
back with the same entries, Dates with the same time); null and undefined
remove the key, after which loadFromStorage returns null. -/
theorem storage_roundtrip (st : Store) (key : String) (v : JSVal)
    (h : topOk v = true) :
    loadFromStorage (saveToStorage st key v) key = v ∧
    (saveToStorage st key JSVal.null).lookup key = none ∧
    loadFromStorage (saveToStorage st key JSVal.null) key = JSVal.null ∧
    (saveToStorage st key JSVal.undef).lookup key = none ∧
    loadFromStorage (saveToStorage st key JSVal.undef) key = JSVal.null := by
  have hnull1 : (saveToStorage st key JSVal.null).lookup key = none :=
    lookup_storeRemove st key
  have hnull2 : loadFromStorage (saveToStorage st key JSVal.null) key = JSVal.null := by
    show loadFromStorage (storeRemove st key) key = JSVal.null
    unfold loadFromStorage
    rw [lookup_storeRemove]
  refine ⟨?_, hnull1, hnull2, lookup_storeRemove st key, ?_⟩
  case refine_2 =>
    show loadFromStorage (storeRemove st key) key = JSVal.null
    unfold loadFromStorage
    rw [lookup_storeRemove]
  cases v with
  | null => simp [topOk] at h
  | undef => simp [topOk] at h
  | obj ps => simp [topOk] at h
  | bool b =>
    rw [show saveToStorage st key (.bool b) = storeSet st key
        (JVal.obj [("type", JVal.str "Boolean"), ("data", JVal.bool b)]) from rfl,
      loadFromStorage_storeSet]
    rfl
  | num q =>
    rw [show saveToStorage st key (.num q) = storeSet st key
        (JVal.obj [("type", JVal.str "Number"), ("data", JVal.num q)]) from rfl,
      loadFromStorage_storeSet]
    rfl
  | str s =>
    rw [show saveToStorage st key (.str s) = storeSet st key
        (JVal.obj [("type", JVal.str "String"), ("data", JVal.str s)]) from rfl,
      loadFromStorage_storeSet]
    rfl
  | date t =>
    rw [show saveToStorage st key (.date t) = storeSet st key
        (JVal.obj [("type", JVal.str "Date"),
                   ("data", JVal.str (dateToJson t))]) from rfl,
      loadFromStorage_storeSet]
    show JSVal.date (jsonToDate (dateToJson t)) = JSVal.date t
    rw [jsonToDate_dateToJson]
  | arr l =>
    rw [show saveToStorage st key (.arr l) = storeSet st key
        (JVal.obj [("type", JVal.str "Array"),
                   ("data", JVal.arr (jsonifyList l))]) from rfl,
      loadFromStorage_storeSet]
    show JSVal.arr (jsOfJsonList (jsonifyList l)) = JSVal.arr l
    rw [jsonifyList_pure_roundtrip l (by simpa [topOk] using h)]
  | set l =>
    simp only [topOk, Bool.and_eq_true] at h
    rw [show saveToStorage st key (.set l) = storeSet st key
        (JVal.obj [("type", JVal.str "Set"),
                   ("data", JVal.arr (jsonifyList l))]) from rfl,
      loadFromStorage_storeSet]
    show newSet (JSVal.arr (jsOfJsonList (jsonifyList l))) = JSVal.set l
    rw [jsonifyList_pure_roundtrip l h.1]
    exact newSet_roundtrip l h.2
  | map es =>
    simp only [topOk, Bool.and_eq_true] at h
    rw [show saveToStorage st key (.map es) = storeSet st key
        (JVal.obj [("type", JVal.str "Map"),
                   ("data", JVal.arr (jsonifyList
                     (es.map (fun e => JSVal.arr [e.1, e.2]))))]) from rfl,
      loadFromStorage_storeSet]
    show newMap (JSVal.arr (jsOfJsonList (jsonifyList
        (es.map (fun e => JSVal.arr [e.1, e.2]))))) = JSVal.map es
    rw [jsonifyList_pure_roundtrip _ (jsonPureList_mapEntries es h.1)]
    exact newMap_roundtrip es h.2

/-- Witness for C9: a Map with a number key and a string key, saved into an
empty store, comes back with the same entries. -/
theorem storage_roundtrip_witness :
    loadFromStorage (saveToStorage [] "egoBB_runInfo"
        (JSVal.map [(JSVal.num 1, JSVal.str "a"),
                    (JSVal.str "x", JSVal.bool true)])) "egoBB_runInfo" =
      JSVal.map [(JSVal.num 1, JSVal.str "a"), (JSVal.str "x", JSVal.bool true)] ∧
    (saveToStorage [] "egoBB_runInfo" JSVal.null).lookup "egoBB_runInfo" = none ∧
    loadFromStorage (saveToStorage [] "egoBB_runInfo" JSVal.null)
      "egoBB_runInfo" = JSVal.null ∧
    (saveToStorage [] "egoBB_runInfo" JSVal.undef).lookup "egoBB_runInfo" = none ∧
    loadFromStorage (saveToStorage [] "egoBB_runInfo" JSVal.undef)
      "egoBB_runInfo" = JSVal.null :=
  storage_roundtrip [] "egoBB_runInfo"
    (JSVal.map [(JSVal.num 1, JSVal.str "a"), (JSVal.str "x", JSVal.bool true)])
    (by rfl)

/-- C9 counterexample to the claim as stated: an Array containing a Date has
constructor Array, but the round trip replaces the nested Date by its
serialization string, so the loaded value differs from the original. -/
theorem storage_roundtrip_counterexample :
    ctorName (JSVal.arr [JSVal.date 0]) = "Array" ∧
    loadFromStorage (saveToStorage [] "k" (JSVal.arr [JSVal.date 0])) "k" ≠
      JSVal.arr [JSVal.date 0] := by
  refine ⟨rfl, ?_⟩
  have hc : loadFromStorage (saveToStorage [] "k" (JSVal.arr [JSVal.date 0])) "k" =
      JSVal.arr [JSVal.str ""] := by rfl
  rw [hc]
  simp

/-- Wrapping the base of an index modulo n first does not change the wrapped
index (the RingBuffer index arithmetic). -/
theorem mod_add_sub_mod (n a j : ℕ) (hj : j ≤ n) :
    (a % n + n - j) % n = (a + n - j) % n := by
  have h1 : a % n + n - j = a % n + (n - j) := by omega
  have h2 : a + n - j = a + (n - j) := by omega
  rw [h1, h2]
  exact (Nat.mod_modEq a n).add_right (n - j)

/-- A slot that held a value still holds one after another slot is written. -/
theorem getD_set_preserve (l : List (Option α)) (i idx : ℕ) (x : α)
    (hold : l.getD idx none ≠ none) :
    (l.set i (some x)).getD idx none ≠ none := by
  by_cases hne : idx = i
  · subst hne
    have hlt : idx < l.length := by
      by_contra hc
      rw [List.getD_eq_getElem?_getD, List.getElem?_eq_none (by omega)] at hold
      simp at hold
    rw [List.getD_eq_getElem?_getD, List.getElem?_set_self hlt]
    simp
  · rw [List.getD_eq_getElem?_getD, List.getElem?_set_ne (fun hiq => hne hiq.symm),
      ← List.getD_eq_getElem?_getD]
    exact hold

/-- The freshly written slot holds a value. -/
theorem getD_set_self_ne_none (l : List (Option α)) (i : ℕ) (x : α)
    (hlt : i < l.length) :
    (l.set i (some x)).getD i none ≠ none := by
  rw [List.getD_eq_getElem?_getD, List.getElem?_set_self hlt]
  simp

/-- A fresh buffer is well-formed. -/
theorem rbwf_make (α : Type) (size : ℕ) (h : 0 < size) :
    RBWF size (RingBuffer.make α size) := by
  refine ⟨rfl, List.length_replicate size none, h, Nat.zero_le _, ?_⟩
  intro j hj1 hj2
  simp only [RingBuffer.make] at hj2
  omega

/-- clear preserves well-formedness. -/
theorem rbwf_clear (size : ℕ) (rb : RingBuffer α) (h : RBWF size rb) :
    RBWF size rb.clear := by
  obtain ⟨hs, hlen, hci, hcount, hfill⟩ := h
  have hn : 0 < size := lt_of_le_of_lt (Nat.zero_le _) hci
  refine ⟨hs, ?_, hn, Nat.zero_le _, ?_⟩
  · simp [RingBuffer.clear, hs]
  · intro j hj1 hj2
    simp only [RingBuffer.clear] at hj2
    omega

/-- add preserves well-formedness. -/
theorem rbwf_add (size : ℕ) (rb : RingBuffer α) (h : RBWF size rb) (x : α) :
    RBWF size (rb.add x) := by
  obtain ⟨hs, hlen, hci, hcount, hfill⟩ := h
  have hn : 0 < size := lt_of_le_of_lt (Nat.zero_le _) hci
  refine ⟨?_, ?_, ?_, ?_, ?_⟩
  · simpa [RingBuffer.add] using hs
  · simp [RingBuffer.add, List.length_set, hlen]
  · simp only [RingBuffer.add, hs]
    exact Nat.mod_lt _ hn
  · simp only [RingBuffer.add, hs]
    split_ifs <;> omega
  · intro j hj1 hj2
    simp only [RingBuffer.add, hs] at hj2 ⊢
    rw [mod_add_sub_mod size (rb.currentIndex + 1) j ?hjn]
    case hjn =>
      rcases Nat.lt_or_ge rb.count size with hlt | hge
      · rw [if_pos hlt] at hj2
        omega
      · rw [if_neg (by omega)] at hj2
        omega
    by_cases hj : j = 1
    · subst hj
      have hidx : rb.currentIndex + 1 + size - 1 = rb.currentIndex + size := by omega
      rw [hidx, Nat.add_mod_right, Nat.mod_eq_of_lt hci]
      exact getD_set_self_ne_none rb.buffer rb.currentIndex x (hlen ▸ hci)
    · have hj2' : j - 1 ≤ rb.count := by
        rcases Nat.lt_or_ge rb.count size with hlt | hge
        · rw [if_pos hlt] at hj2
          omega
        · rw [if_neg (by omega)] at hj2
          omega
      have hidx : rb.currentIndex + 1 + size - j = rb.currentIndex + size - (j - 1) := by
        omega
      rw [hidx]
      exact getD_set_preserve rb.buffer rb.currentIndex _ x
        (hfill (j - 1) (by omega) hj2')

/-- Every add/clear sequence from a fresh buffer yields a well-formed
buffer. -/
theorem rbwf_runOps (α : Type) (size : ℕ) (h : 0 < size) (ops : List (RBOp α)) :
    RBWF size (runOps α size ops) := by
  suffices hgen : ∀ rb, RBWF size rb → RBWF size (ops.foldl applyOp rb) from
    hgen _ (rbwf_make α size h)
  induction ops with
  | nil => exact fun rb hrb => hrb
  | cons op ops ih =>
    intro rb hrb
    cases op with
    | add x => exact ih _ (rbwf_add size rb hrb x)
    | clear => exact ih _ (rbwf_clear size rb hrb)

/-- Immediately after add(x) on a well-formed buffer, current() returns x
and isEmpty() is false. -/
theorem rb_add_current (size : ℕ) (rb : RingBuffer α) (h : RBWF size rb) (x : α) :
    (rb.add x).current = some x ∧ (rb.add x).isEmpty = false := by
  obtain ⟨hs, hlen, hci, hcount, hfill⟩ := h
  have hn : 0 < size := lt_of_le_of_lt (Nat.zero_le _) hci
  have hcnt : ¬ (rb.add x).count = 0 := by
    show ¬ (if rb.count < rb.size then rb.count + 1 else rb.count) = 0
    rw [hs]
    split_ifs with hc
    · exact not_false
    · omega
  constructor
  · unfold RingBuffer.current
    rw [if_neg hcnt]
    simp only [RingBuffer.add, hs]
    rw [mod_add_sub_mod size (rb.currentIndex + 1) 1 hn]
    have hidx : rb.currentIndex + 1 + size - 1 = rb.currentIndex + size := by omega
    rw [hidx, Nat.add_mod_right, Nat.mod_eq_of_lt hci]
    rw [List.getD_eq_getElem?_getD, List.getElem?_set_self (hlen ▸ hci)]
    rfl
  · simp [RingBuffer.isEmpty, hcnt]

/-- On a well-formed buffer, previous(steps) is null exactly for an
out-of-range steps. -/
theorem rb_previous_none_iff (size : ℕ) (rb : RingBuffer α) (h : RBWF size rb)
    (steps : ℕ) :
    (rb.previous steps = none ↔ steps < 1 ∨ steps > rb.count) := by
  obtain ⟨hs, hlen, hci, hcount, hfill⟩ := h
  unfold RingBuffer.previous
  by_cases hg : steps < 1 ∨ steps > rb.count
  · rw [if_pos hg]
    simpa using hg
  · rw [if_neg hg, hs]
    push_neg at hg
    have hne := hfill steps hg.1 hg.2
    constructor
    · intro hnone
      exact absurd hnone hne
    · intro hcon
      rcases hcon with hc | hc
      · omega
      · omega

/-- C10: the RingBuffer constructor rejects exactly the sizes that are not
positive integers; from a fresh buffer of positive integer size, after any
add/clear sequence, add(x) makes current() return x and isEmpty() false, the
count stays at most size and the write index stays below size (both are
nonnegative naturals), and previous(steps) returns null exactly when
steps < 1 or steps > count. -/
theorem ringBuffer_claims (α : Type) (sq : ℚ) (size : ℕ) (h : 0 < size)
    (ops : List (RBOp α)) (x : α) (steps : ℕ) :
    (ringBufferCtorThrows sq = true ↔ ¬ (0 < sq ∧ sq.den = 1)) ∧
    ((runOps α size ops).add x).current = some x ∧
    ((runOps α size ops).add x).isEmpty = false ∧
    (runOps α size ops).count ≤ size ∧
    (runOps α size ops).currentIndex < size ∧
    ((runOps α size ops).previous steps = none ↔
      steps < 1 ∨ steps > (runOps α size ops).count) := by
  have hwf := rbwf_runOps α size h ops
  obtain ⟨hadd1, hadd2⟩ := rb_add_current size _ hwf x
  refine ⟨?_, hadd1, hadd2, hwf.2.2.2.1, hwf.2.2.1,
    rb_previous_none_iff size _ hwf steps⟩
  unfold ringBufferCtorThrows
  constructor
  · intro hb
    simp only [Bool.or_eq_true, beq_iff_eq, decide_eq_true_eq, Bool.not_eq_true',
      beq_eq_false_iff_ne, ne_eq] at hb
    rintro ⟨hpos, hden⟩
    rcases hb with (h0 | hle) | hd
    · exact absurd h0 (ne_of_gt hpos)
    · linarith
    · exact hd hden
  · intro hni
    simp only [Bool.or_eq_true, beq_iff_eq, decide_eq_true_eq, Bool.not_eq_true',
      beq_eq_false_iff_ne, ne_eq]
    by_cases hpos : 0 < sq
    · refine Or.inr (fun hden => hni ⟨hpos, hden⟩)
    · exact Or.inl (Or.inr (not_lt.1 hpos))

/-- Witness for C10: size 3 is accepted (size check instantiated at 3), a
buffer of size 2 wraps after three adds, and previous is null exactly out of
range. -/
theorem ringBuffer_claims_witness :
    (ringBufferCtorThrows 3 = true ↔ ¬ ((0 : ℚ) < 3 ∧ (3 : ℚ).den = 1)) ∧
    ((runOps ℕ 2 [RBOp.add 10, RBOp.add 20, RBOp.add 30]).add 7).current =
      some 7 ∧
    ((runOps ℕ 2 [RBOp.add 10, RBOp.add 20, RBOp.add 30]).add 7).isEmpty =
      false ∧
    (runOps ℕ 2 [RBOp.add 10, RBOp.add 20, RBOp.add 30]).count ≤ 2 ∧
    (runOps ℕ 2 [RBOp.add 10, RBOp.add 20, RBOp.add 30]).currentIndex < 2 ∧
    ((runOps ℕ 2 [RBOp.add 10, RBOp.add 20, RBOp.add 30]).previous 2 = none ↔
      2 < 1 ∨ 2 > (runOps ℕ 2 [RBOp.add 10, RBOp.add 20, RBOp.add 30]).count) :=
  ringBuffer_claims ℕ 3 2 (by norm_num) [RBOp.add 10, RBOp.add 20, RBOp.add 30] 7 2

end Bitburner
